import Mathlib

/-!
Verification of the session-multiplexing HTTP transport gateway
(`src/http.ts`, `createMcpHttpServer`).

The gateway keeps a registry `transports : Map<string, Transport>` from
session id to per-session channel, dispatches requests by HTTP method and
session header, and relies on two engine callbacks: one fired when the
engine assigns a session id (which inserts into the registry) and one
fired when the channel closes (which removes the channel's own id, if
any, from the registry).

The embedding below models:
* the registry as an association list with JS `Map` semantics
  (`mapGet`/`mapSet`/`mapDelete`/`mapHas`);
* each transport object the gateway ever created as an index into a list
  of `ChannelState`s (the index doubles as reference identity, and the
  list length counts factory invocations, one per created engine);
* `handleMcpRequest` as a function from gateway state, method string,
  optional session header and collected-body outcome to a new state and
  an `Outcome` (direct response, delegation to a channel, or a thrown
  failure);
* the two engine callbacks as explicit transition events
  (`applyEstablished`, `applyClose`) with the collaborator contract of
  the engine (each fires at most/exactly once, ids are fresh) as
  preconditions of the `Step` relation;
* the top-level listener glue (`handleConnection`), the promise returned
  by `start` (`startSettle`) and the drain sequence of `stop`
  (`stopActions`).
-/

namespace McpGateway

/-- A structured (JSON-like) message value, the result of parsing a
request body and the payload of gateway-produced error responses. -/
inductive Json where
  | null : Json
  | bool (b : Bool) : Json
  | num (n : Int) : Json
  | str (s : String) : Json
  | arr (elems : List Json) : Json
  | obj (fields : List (String × Json)) : Json

/-- The per-session channel as the gateway observes it: the session id
the engine has assigned to it (the transport's `sessionId` property,
`none` until the session is initialized) and whether its close callback
has fired. -/
structure ChannelState where
  sessionId : Option String
  closed : Bool
deriving DecidableEq, Repr

/-- State owned by one gateway instance: the id-to-channel registry (the
`transports` map) and the list of every channel created so far, indexed
by creation order.  A registry value is an index into `channels`; the
length of `channels` is the number of factory invocations. -/
structure GatewayState where
  transports : List (String × Nat)
  channels : List ChannelState
deriving DecidableEq, Repr

/-- The `Map.get` operation: first (and, with unique keys, only) value stored under a
key. -/
def mapGet (m : List (String × Nat)) (k : String) : Option Nat :=
  match m with
  | [] => none
  | (k', v) :: rest => if k' = k then some v else mapGet rest k

/-- The `Map.has` operation. -/
def mapHas (m : List (String × Nat)) (k : String) : Bool :=
  (mapGet m k).isSome

/-- The `Map.set` operation: replace in place if the key is present, else append. -/
def mapSet (m : List (String × Nat)) (k : String) (v : Nat) :
    List (String × Nat) :=
  match m with
  | [] => [(k, v)]
  | (k', v') :: rest =>
    if k' = k then (k, v) :: rest else (k', v') :: mapSet rest k v

/-- The `Map.delete` operation: remove the entry stored under a key. -/
def mapDelete (m : List (String × Nat)) (k : String) :
    List (String × Nat) :=
  match m with
  | [] => []
  | (k', v') :: rest =>
    if k' = k then rest else (k', v') :: mapDelete rest k

/-- Number of registry entries under a given key. -/
def countKeys (m : List (String × Nat)) (k : String) : Nat :=
  (m.filter fun p => p.1 == k).length

/-- The channel stored at index `ch` (a dummy open channel out of
range; every use is guarded by `ch < st.channels.length`). -/
def ChannelAt (st : GatewayState) (ch : Nat) : ChannelState :=
  st.channels.getD ch ⟨none, false⟩

/-- Body of the 400 response of `handleMcpRequest` for a read or
terminate request with an invalid or missing session id. -/
def invalidSessionJson : Json :=
  Json.obj [("jsonrpc", Json.str "2.0"),
            ("error", Json.obj [("code", Json.num (-32000)),
                                ("message", Json.str "Invalid or missing session ID")]),
            ("id", Json.null)]

/-- Body of the 405 response of `handleMcpRequest` for an unsupported
verb. -/
def methodNotAllowedJson : Json :=
  Json.obj [("jsonrpc", Json.str "2.0"),
            ("error", Json.obj [("code", Json.num (-32000)),
                                ("message", Json.str "Method not allowed")]),
            ("id", Json.null)]

/-- Body of the 500 response sent by the top-level catch handler. -/
def internalErrorJson : Json :=
  Json.obj [("jsonrpc", Json.str "2.0"),
            ("error", Json.obj [("code", Json.num (-32603)),
                                ("message", Json.str "Internal server error")]),
            ("id", Json.null)]

/-- Body of the 404 response for a path mismatch. -/
def notFoundJson : Json :=
  Json.obj [("error", Json.str "Not found")]

/-- Body collection (`parseBody`): accumulate the stream into `body`; on end of stream an
empty buffer resolves to `undefined` (`none`, no parse attempted), a
non-empty buffer is handed to the structured-format parse `jsonParse`
(the platform's `JSON.parse`, kept abstract), whose failure rejects the
promise. -/
def parseBody (jsonParse : String → Except String Json) (body : String) :
    Except String (Option Json) :=
  if body = "" then Except.ok none
  else
    match jsonParse body with
    | Except.ok v => Except.ok (some v)
    | Except.error e => Except.error e

/-- What one call of `handleMcpRequest` did besides updating the state:
answered directly with a status and body, delegated the exchange to a
channel's `handleRequest` (with or without a body argument), or let a
failure (for instance a body-parse rejection) propagate to the caller. -/
inductive Outcome where
  | responded (status : Nat) (body : Json)
  | handled (ch : Nat) (body : Option Json)
  | handledNoBody (ch : Nat)
  | threw (e : String)

/-- Dispatcher `handleMcpRequest`, translated from `src/http.ts`.

POST: if a session header is supplied and registered, reuse that
channel; otherwise invoke the factory, create a fresh transport (with
its id-assigned and close callbacks installed) and connect the engine to
it.  In either case the body is then collected (`pb` is the result of
`parseBody`; its rejection propagates out before any `handleRequest`
call) and forwarded to the chosen channel.

GET/DELETE: require a registered session header, else answer 400 with
`invalidSessionJson` and do nothing else.

Any other verb: answer 405 with `methodNotAllowedJson`. -/
def handleMcpRequest (st : GatewayState) (method : String)
    (sessionId : Option String) (pb : Except String (Option Json)) :
    GatewayState × Outcome :=
  if method = "POST" then
    let reuse : Option Nat :=
      match sessionId with
      | some sid => if mapHas st.transports sid then mapGet st.transports sid else none
      | none => none
    match reuse with
    | some ch =>
      match pb with
      | Except.error e => (st, Outcome.threw e)
      | Except.ok b => (st, Outcome.handled ch b)
    | none =>
      let ch := st.channels.length
      let st' : GatewayState :=
        { st with channels := st.channels ++ [⟨none, false⟩] }
      match pb with
      | Except.error e => (st', Outcome.threw e)
      | Except.ok b => (st', Outcome.handled ch b)
  else if method = "GET" ∨ method = "DELETE" then
    match sessionId with
    | some sid =>
      match mapGet st.transports sid with
      | some ch => (st, Outcome.handledNoBody ch)
      | none => (st, Outcome.responded 400 invalidSessionJson)
    | none => (st, Outcome.responded 400 invalidSessionJson)
  else
    (st, Outcome.responded 405 methodNotAllowedJson)

/-- The transport's id-assigned callback for channel `ch`: the engine
records `sid` as the transport's session id and the installed callback
inserts `sid ↦ ch` into the registry. -/
def applyEstablished (st : GatewayState) (ch : Nat) (sid : String) :
    GatewayState :=
  { transports := mapSet st.transports sid ch,
    channels := st.channels.set ch
      { sessionId := some sid, closed := (ChannelAt st ch).closed } }

/-- The transport's close callback for channel `ch`: if the transport
has a session id, delete it from the registry; a channel that was never
assigned an id deletes nothing.  The channel is marked closed. -/
def applyClose (st : GatewayState) (ch : Nat) : GatewayState :=
  { transports :=
      match (ChannelAt st ch).sessionId with
      | some sid => mapDelete st.transports sid
      | none => st.transports,
    channels := st.channels.set ch
      { sessionId := (ChannelAt st ch).sessionId, closed := true } }

/-- The gateway starts with an empty registry and no channels. -/
def initialState : GatewayState := ⟨[], []⟩

/-- One atomic event touching the gateway state: a dispatched request,
an id-assignment callback, or a close callback.  The preconditions on
the two callback events are the collaborator contract of the engine: the
id-assigned callback fires at most once per channel and only while the
channel is open, with a freshly generated id (`randomUUID`) assigned to
no other channel; the close callback fires once, on an open channel. -/
inductive Step : GatewayState → GatewayState → Prop where
  | request {st : GatewayState} (m : String) (sid : Option String)
      (pb : Except String (Option Json)) :
      Step st (handleMcpRequest st m sid pb).1
  | established {st : GatewayState} (ch : Nat) (sid : String)
      (hch : ch < st.channels.length)
      (hnone : (ChannelAt st ch).sessionId = none)
      (hopen : (ChannelAt st ch).closed = false)
      (hfresh : ∀ c ∈ st.channels, c.sessionId ≠ some sid) :
      Step st (applyEstablished st ch sid)
  | closeEvt {st : GatewayState} (ch : Nat)
      (hch : ch < st.channels.length)
      (hopen : (ChannelAt st ch).closed = false) :
      Step st (applyClose st ch)

/-- States reachable from the freshly constructed gateway. -/
inductive Reachable : GatewayState → Prop where
  | init : Reachable initialState
  | step {st st' : GatewayState} :
      Reachable st → Step st st' → Reachable st'

/-- What the connection handler of `createMcpHttpServer` did with one
exchange: sent a response itself, delegated the exchange to a channel,
or (bytes already sent when a failure surfaced) only logged the
failure. -/
inductive ConnResult where
  | sent (status : Nat) (body : Json)
  | delegated (ch : Nat) (body : Option Json)
  | delegatedNoBody (ch : Nat)
  | loggedOnly (e : String)

/-- Top-level connection handler: path mismatch answers 404; on a match
`handleMcpRequest` runs and any failure it lets propagate is caught,
answered 500 with `internalErrorJson` when no response bytes have been
sent yet (`headersSent = false`), otherwise only logged. -/
def handleConnection (st : GatewayState) (cfgPath reqPath : String)
    (method : String) (sessionId : Option String)
    (pb : Except String (Option Json)) (headersSent : Bool) :
    GatewayState × ConnResult :=
  if reqPath = cfgPath then
    match handleMcpRequest st method sessionId pb with
    | (st', Outcome.threw e) =>
      (st', if headersSent then ConnResult.loggedOnly e
            else ConnResult.sent 500 internalErrorJson)
    | (st', Outcome.responded status body) => (st', ConnResult.sent status body)
    | (st', Outcome.handled ch b) => (st', ConnResult.delegated ch b)
    | (st', Outcome.handledNoBody ch) => (st', ConnResult.delegatedNoBody ch)
  else
    (st, ConnResult.sent 404 notFoundJson)

/-- Events the listener can raise after `listen` is invoked: the
`listening` callback (bound and accepting) or the `error` event (for
instance, port unavailable). -/
inductive ListenEvent where
  | listening : ListenEvent
  | errorEvent : ListenEvent
deriving DecidableEq

/-- Ways the promise returned by `start` could settle. -/
inductive StartOutcome where
  | resolved : StartOutcome
  | rejected : StartOutcome
deriving DecidableEq

/-- How the promise returned by `start` settles on each listener event.
The executor passes `resolve` as the `listen` callback and installs no
error handler and no `reject` path, so the promise resolves on
`listening` and settles on nothing else. -/
def startSettle : ListenEvent → Option StartOutcome
  | ListenEvent.listening => some StartOutcome.resolved
  | ListenEvent.errorEvent => none

/-- A suspension or call the body of `stop` performs, in order. -/
inductive StopAction where
  | awaitChannelClose (ch : Nat)
  | callListenerClose
  | awaitListenerClose
deriving DecidableEq

/-- The channel-drain loop of `stop`: `close()` is awaited on each
registry value in iteration order. -/
def stopChannelCloses : List (String × Nat) → List StopAction
  | [] => []
  | (_, ch) :: rest => StopAction.awaitChannelClose ch :: stopChannelCloses rest

/-- The full ordered action sequence of `stop`: await every registered
channel's `close()`, then invoke the listener's `close()` — whose
completion is not awaited (no callback, no promise) — and return,
resolving the `stop` promise. -/
def stopActions (st : GatewayState) : List StopAction :=
  stopChannelCloses st.transports ++ [StopAction.callListenerClose]

/-! Association-list lemmas for the JS `Map` operations. -/

theorem mapGet_mem {m : List (String × Nat)} {k : String} {v : Nat}
    (h : mapGet m k = some v) : (k, v) ∈ m := by
  induction m with
  | nil => simp [mapGet] at h
  | cons hd tl ih =>
    obtain ⟨k', v'⟩ := hd
    by_cases hk : k' = k
    · subst hk
      simp [mapGet] at h
      simp [h]
    · simp [mapGet, hk] at h
      exact List.mem_cons_of_mem _ (ih h)

theorem mapGet_isSome_of_mem {m : List (String × Nat)} {k : String} {v : Nat}
    (h : (k, v) ∈ m) : (mapGet m k).isSome := by
  induction m with
  | nil => simp at h
  | cons hd tl ih =>
    obtain ⟨k', v'⟩ := hd
    rcases List.mem_cons.1 h with h1 | h2
    · obtain ⟨hk, _⟩ := Prod.mk.injEq .. ▸ h1
      simp [mapGet, hk.symm]
    · by_cases hk : k' = k
      · simp [mapGet, hk]
      · simp only [mapGet, if_neg hk]
        exact ih h2

theorem mapGet_of_mem_nodup {m : List (String × Nat)} {k : String} {v : Nat}
    (hnd : (m.map Prod.fst).Nodup) (h : (k, v) ∈ m) : mapGet m k = some v := by
  induction m with
  | nil => simp at h
  | cons hd tl ih =>
    obtain ⟨k', v'⟩ := hd
    simp only [List.map_cons, List.nodup_cons, List.mem_map] at hnd
    rcases List.mem_cons.1 h with h1 | h2
    · obtain ⟨hk, hv⟩ := Prod.mk.injEq .. ▸ h1
      simp [mapGet, hk.symm, hv]
    · have hk : k' ≠ k := by
        intro hkk
        exact hnd.1 ⟨(k, v), h2, by simp [hkk]⟩
      simp only [mapGet, if_neg hk]
      exact ih hnd.2 h2

theorem mapGet_mapSet_self (m : List (String × Nat)) (k : String) (v : Nat) :
    mapGet (mapSet m k v) k = some v := by
  induction m with
  | nil => simp [mapSet, mapGet]
  | cons hd tl ih =>
    obtain ⟨k', v'⟩ := hd
    by_cases hk : k' = k
    · simp [mapSet, mapGet, hk]
    · simp [mapSet, mapGet, hk, ih]

theorem mapGet_mapSet_ne (m : List (String × Nat)) {k k' : String} (v : Nat)
    (h : k ≠ k') : mapGet (mapSet m k v) k' = mapGet m k' := by
  induction m with
  | nil => simp [mapSet, mapGet, h]
  | cons hd tl ih =>
    obtain ⟨k₀, v₀⟩ := hd
    by_cases hk : k₀ = k
    · rw [show mapSet ((k₀, v₀) :: tl) k v = (k, v) :: tl from by simp [mapSet, hk]]
      have hk₀ : k₀ ≠ k' := hk ▸ h
      simp [mapGet, h, hk₀]
    · rw [show mapSet ((k₀, v₀) :: tl) k v = (k₀, v₀) :: mapSet tl k v from by
        simp [mapSet, hk]]
      by_cases hk' : k₀ = k'
      · simp [mapGet, hk']
      · simp [mapGet, hk', ih]

theorem mem_mapSet_nodup {m : List (String × Nat)} {k : String} {v : Nat}
    (hnd : (m.map Prod.fst).Nodup) (p : String × Nat) :
    p ∈ mapSet m k v ↔ p = (k, v) ∨ (p ∈ m ∧ p.1 ≠ k) := by
  induction m with
  | nil => simp [mapSet]
  | cons hd tl ih =>
    obtain ⟨k', v'⟩ := hd
    simp only [List.map_cons, List.nodup_cons, List.mem_map] at hnd
    by_cases hk : k' = k
    · rw [show mapSet ((k', v') :: tl) k v = (k, v) :: tl from by simp [mapSet, hk]]
      subst hk
      have hrest : ∀ q ∈ tl, (q : String × Nat).1 ≠ k' := by
        intro q hq hqk
        exact hnd.1 ⟨q, hq, hqk⟩
      simp only [List.mem_cons]
      constructor
      · rintro (h1 | h2)
        · exact Or.inl h1
        · exact Or.inr ⟨Or.inr h2, hrest p h2⟩
      · rintro (h1 | ⟨h2 | h4, h3⟩)
        · exact Or.inl h1
        · exact absurd (by simp [h2]) h3
        · exact Or.inr h4
    · rw [show mapSet ((k', v') :: tl) k v = (k', v') :: mapSet tl k v from by
        simp [mapSet, hk]]
      simp only [List.mem_cons, ih hnd.2]
      constructor
      · rintro (h1 | h2 | h3)
        · exact Or.inr ⟨Or.inl h1, by simp [h1, hk]⟩
        · exact Or.inl h2
        · exact Or.inr ⟨Or.inr h3.1, h3.2⟩
      · rintro (h1 | ⟨h2 | h3, h4⟩)
        · exact Or.inr (Or.inl h1)
        · exact Or.inl h2
        · exact Or.inr (Or.inr ⟨h3, h4⟩)

theorem keys_mapSet_nodup {m : List (String × Nat)} {k : String} {v : Nat}
    (hnd : (m.map Prod.fst).Nodup) :
    ((mapSet m k v).map Prod.fst).Nodup := by
  induction m with
  | nil => simp [mapSet]
  | cons hd tl ih =>
    obtain ⟨k', v'⟩ := hd
    simp only [List.map_cons, List.nodup_cons, List.mem_map] at hnd
    by_cases hk : k' = k
    · rw [show mapSet ((k', v') :: tl) k v = (k, v) :: tl from by simp [mapSet, hk]]
      subst hk
      simp only [List.map_cons, List.nodup_cons, List.mem_map]
      exact hnd
    · rw [show mapSet ((k', v') :: tl) k v = (k', v') :: mapSet tl k v from by
        simp [mapSet, hk]]
      simp only [List.map_cons, List.nodup_cons, List.mem_map]
      refine ⟨?_, ih hnd.2⟩
      rintro ⟨p, hp, hpk⟩
      rcases (mem_mapSet_nodup hnd.2 p).1 hp with h1 | h2
      · exact hk (by rw [← hpk, h1])
      · exact hnd.1 ⟨p, h2.1, hpk⟩

theorem mapDelete_sublist (m : List (String × Nat)) (k : String) :
    (mapDelete m k).Sublist m := by
  induction m with
  | nil => simp [mapDelete]
  | cons hd tl ih =>
    obtain ⟨k', v'⟩ := hd
    by_cases hk : k' = k
    · rw [show mapDelete ((k', v') :: tl) k = tl from by simp [mapDelete, hk]]
      exact List.sublist_cons_self _ _
    · rw [show mapDelete ((k', v') :: tl) k = (k', v') :: mapDelete tl k from by
        simp [mapDelete, hk]]
      exact ih.cons₂ _

theorem keys_mapDelete_nodup {m : List (String × Nat)} {k : String}
    (hnd : (m.map Prod.fst).Nodup) :
    ((mapDelete m k).map Prod.fst).Nodup :=
  hnd.sublist ((mapDelete_sublist m k).map Prod.fst)

theorem mapGet_mapDelete_self {m : List (String × Nat)} {k : String}
    (hnd : (m.map Prod.fst).Nodup) : mapGet (mapDelete m k) k = none := by
  induction m with
  | nil => simp [mapDelete, mapGet]
  | cons hd tl ih =>
    obtain ⟨k', v'⟩ := hd
    simp only [List.map_cons, List.nodup_cons, List.mem_map] at hnd
    by_cases hk : k' = k
    · rw [show mapDelete ((k', v') :: tl) k = tl from by simp [mapDelete, hk]]
      subst hk
      cases h : mapGet tl k' with
      | none => rfl
      | some v =>
        exact absurd ⟨(k', v), mapGet_mem h, rfl⟩ hnd.1
    · rw [show mapDelete ((k', v') :: tl) k = (k', v') :: mapDelete tl k from by
        simp [mapDelete, hk]]
      rw [show mapGet ((k', v') :: mapDelete tl k) k = mapGet (mapDelete tl k) k from by
        simp [mapGet, hk]]
      exact ih hnd.2

theorem mapGet_mapDelete_ne (m : List (String × Nat)) {k k' : String}
    (h : k ≠ k') : mapGet (mapDelete m k) k' = mapGet m k' := by
  induction m with
  | nil => simp [mapDelete]
  | cons hd tl ih =>
    obtain ⟨k₀, v₀⟩ := hd
    by_cases hk : k₀ = k
    · rw [show mapDelete ((k₀, v₀) :: tl) k = tl from by simp [mapDelete, hk]]
      have hk₀ : k₀ ≠ k' := hk ▸ h
      simp [mapGet, hk₀]
    · rw [show mapDelete ((k₀, v₀) :: tl) k = (k₀, v₀) :: mapDelete tl k from by
        simp [mapDelete, hk]]
      by_cases hk' : k₀ = k'
      · simp [mapGet, hk']
      · simp [mapGet, hk', ih]

theorem mem_mapDelete_nodup {m : List (String × Nat)} {k : String}
    (hnd : (m.map Prod.fst).Nodup) (p : String × Nat) :
    p ∈ mapDelete m k ↔ p ∈ m ∧ p.1 ≠ k := by
  induction m with
  | nil => simp [mapDelete]
  | cons hd tl ih =>
    obtain ⟨k', v'⟩ := hd
    simp only [List.map_cons, List.nodup_cons, List.mem_map] at hnd
    by_cases hk : k' = k
    · rw [show mapDelete ((k', v') :: tl) k = tl from by simp [mapDelete, hk]]
      subst hk
      simp only [List.mem_cons]
      constructor
      · intro hp
        refine ⟨Or.inr hp, ?_⟩
        intro hpk
        exact hnd.1 ⟨p, hp, hpk⟩
      · rintro ⟨h1 | h2, h3⟩
        · exact absurd (by simp [h1]) h3
        · exact h2
    · rw [show mapDelete ((k', v') :: tl) k = (k', v') :: mapDelete tl k from by
        simp [mapDelete, hk]]
      simp only [List.mem_cons, ih hnd.2]
      constructor
      · rintro (h1 | ⟨h2, h3⟩)
        · exact ⟨Or.inl h1, by simp [h1, hk]⟩
        · exact ⟨Or.inr h2, h3⟩
      · rintro ⟨h1 | h2, h3⟩
        · exact Or.inl h1
        · exact Or.inr ⟨h2, h3⟩

theorem countKeys_eq_zero {m : List (String × Nat)} {k : String}
    (h : mapGet m k = none) : countKeys m k = 0 := by
  induction m with
  | nil => rfl
  | cons hd tl ih =>
    obtain ⟨k', v'⟩ := hd
    by_cases hk : k' = k
    · simp [mapGet, hk] at h
    · rw [show mapGet ((k', v') :: tl) k = mapGet tl k from by simp [mapGet, hk]] at h
      rw [show countKeys ((k', v') :: tl) k = countKeys tl k from by
        simp [countKeys, List.filter_cons, hk]]
      exact ih h

theorem countKeys_eq_one {m : List (String × Nat)} {k : String} {v : Nat}
    (hnd : (m.map Prod.fst).Nodup) (h : mapGet m k = some v) :
    countKeys m k = 1 := by
  induction m with
  | nil => simp [mapGet] at h
  | cons hd tl ih =>
    obtain ⟨k', v'⟩ := hd
    simp only [List.map_cons, List.nodup_cons, List.mem_map] at hnd
    by_cases hk : k' = k
    · have hnone : mapGet tl k = none := by
        cases hg : mapGet tl k with
        | none => rfl
        | some w => exact absurd ⟨(k, w), mapGet_mem hg, rfl⟩ (hk ▸ hnd.1)
      rw [show countKeys ((k', v') :: tl) k = countKeys tl k + 1 from by
        simp [countKeys, List.filter_cons, hk]]
      rw [countKeys_eq_zero hnone]
    · rw [show mapGet ((k', v') :: tl) k = mapGet tl k from by simp [mapGet, hk]] at h
      rw [show countKeys ((k', v') :: tl) k = countKeys tl k from by
        simp [countKeys, List.filter_cons, hk]]
      exact ih hnd.2 h

/-! `List.getD` helper lemmas. -/

theorem getD_set_self {α : Type} (l : List α) (n : Nat) (a d : α)
    (h : n < l.length) : (l.set n a).getD n d = a := by
  induction l generalizing n with
  | nil => simp at h
  | cons hd tl ih =>
    cases n with
    | zero => rfl
    | succ n => exact ih n (Nat.lt_of_succ_lt_succ h)

theorem getD_set_ne {α : Type} (l : List α) (i n : Nat) (a d : α)
    (h : i ≠ n) : (l.set i a).getD n d = l.getD n d := by
  induction l generalizing i n with
  | nil => simp
  | cons hd tl ih =>
    cases i with
    | zero =>
      cases n with
      | zero => exact absurd rfl h
      | succ n => rfl
    | succ i =>
      cases n with
      | zero => rfl
      | succ n => exact ih i n fun hh => h (by rw [hh])

theorem getD_append_left {α : Type} (l₁ l₂ : List α) (n : Nat) (d : α)
    (h : n < l₁.length) : (l₁ ++ l₂).getD n d = l₁.getD n d := by
  induction l₁ generalizing n with
  | nil => simp at h
  | cons hd tl ih =>
    cases n with
    | zero => rfl
    | succ n => exact ih n (Nat.lt_of_succ_lt_succ h)

theorem getD_append_length {α : Type} (l : List α) (a d : α) :
    (l ++ [a]).getD l.length d = a := by
  induction l with
  | nil => rfl
  | cons hd tl ih => exact ih

theorem getD_mem {α : Type} (l : List α) (n : Nat) (d : α)
    (h : n < l.length) : l.getD n d ∈ l := by
  induction l generalizing n with
  | nil => simp at h
  | cons hd tl ih =>
    cases n with
    | zero => exact List.mem_cons_self _ _
    | succ n => exact List.mem_cons_of_mem _ (ih n (Nat.lt_of_succ_lt_succ h))

/-! The registry/channel consistency invariant and its preservation. -/

/-- Consistency of one gateway state: registry keys are unique, every
registry entry points at a created, established, not-yet-closed channel
carrying exactly that id, every established open channel is registered
under its id, and no two channels carry the same id. -/
structure Inv (st : GatewayState) : Prop where
  keysNodup : (st.transports.map Prod.fst).Nodup
  entries : ∀ p ∈ st.transports, p.2 < st.channels.length ∧
    (ChannelAt st p.2).sessionId = some p.1 ∧ (ChannelAt st p.2).closed = false
  complete : ∀ ch, ch < st.channels.length →
    ∀ sid, (ChannelAt st ch).sessionId = some sid →
    (ChannelAt st ch).closed = false → (sid, ch) ∈ st.transports
  uniqueIds : ∀ i j : Nat, i < st.channels.length → j < st.channels.length →
    ∀ sid, (ChannelAt st i).sessionId = some sid →
    (ChannelAt st j).sessionId = some sid → i = j

/-- A dispatched request leaves the state alone (reuse and reject
paths) or merely appends one fresh unestablished open channel (create
path); in particular it never touches the registry. -/
theorem handleMcpRequest_state (st : GatewayState) (m : String)
    (sid : Option String) (pb : Except String (Option Json)) :
    (handleMcpRequest st m sid pb).1 = st ∨
    (handleMcpRequest st m sid pb).1 =
      { st with channels := st.channels ++ [⟨none, false⟩] } := by
  unfold handleMcpRequest
  dsimp only
  repeat' split
  all_goals simp

/-- Requests never mutate the registry. -/
theorem handleMcpRequest_transports (st : GatewayState) (m : String)
    (sid : Option String) (pb : Except String (Option Json)) :
    (handleMcpRequest st m sid pb).1.transports = st.transports := by
  rcases handleMcpRequest_state st m sid pb with h | h <;> rw [h]

theorem inv_initialState : Inv initialState := by
  constructor
  · simp [initialState]
  · intro p hp
    simp [initialState] at hp
  · intro ch hch
    simp [initialState] at hch
  · intro i j hi
    simp [initialState] at hi

/-- Appending one fresh unestablished open channel preserves the
invariant. -/
theorem inv_extend (st : GatewayState) (hInv : Inv st) :
    Inv { st with channels := st.channels ++ [⟨none, false⟩] } := by
  set st' : GatewayState := { st with channels := st.channels ++ [⟨none, false⟩] }
  have hAt : ∀ ch, ch < st.channels.length → ChannelAt st' ch = ChannelAt st ch := by
    intro ch hch
    simp only [ChannelAt, st']
    exact getD_append_left _ _ _ _ hch
  have hAtNew : ∀ ch, ¬ch < st.channels.length →
      (ChannelAt st' ch).sessionId = none := by
    intro ch hch
    by_cases he : ch = st.channels.length
    · subst he
      simp only [ChannelAt, st']
      rw [getD_append_length]
    · have : st'.channels.length ≤ ch := by
        simp only [st', List.length_append, List.length_cons, List.length_nil]
        omega
      simp only [ChannelAt]
      rw [List.getD_eq_default _ _ this]
  constructor
  · exact hInv.keysNodup
  · intro p hp
    obtain ⟨h1, h2, h3⟩ := hInv.entries p hp
    refine ⟨?_, ?_, ?_⟩
    · simp only [st', List.length_append, List.length_cons, List.length_nil]
      omega
    · rw [hAt p.2 h1]; exact h2
    · rw [hAt p.2 h1]; exact h3
  · intro ch hch sid hsid hcl
    by_cases h1 : ch < st.channels.length
    · rw [hAt ch h1] at hsid hcl
      exact hInv.complete ch h1 sid hsid hcl
    · rw [hAtNew ch h1] at hsid
      exact absurd hsid (by simp)
  · intro i j hi hj sid hsi hsj
    by_cases h1 : i < st.channels.length
    · by_cases h2 : j < st.channels.length
      · rw [hAt i h1] at hsi
        rw [hAt j h2] at hsj
        exact hInv.uniqueIds i j h1 h2 sid hsi hsj
      · rw [hAtNew j h2] at hsj
        exact absurd hsj (by simp)
    · rw [hAtNew i h1] at hsi
      exact absurd hsi (by simp)

/-- Dispatching any request preserves the invariant. -/
theorem inv_request (st : GatewayState) (hInv : Inv st) (m : String)
    (sid : Option String) (pb : Except String (Option Json)) :
    Inv (handleMcpRequest st m sid pb).1 := by
  rcases handleMcpRequest_state st m sid pb with h | h <;> rw [h]
  · exact hInv
  · exact inv_extend st hInv

/-- The id-assigned callback preserves the invariant, given the engine
contract (first id assignment, channel still open, id fresh). -/
theorem inv_established (st : GatewayState) (hInv : Inv st) (ch : Nat) (sid : String)
    (hch : ch < st.channels.length)
    (hnone : (ChannelAt st ch).sessionId = none)
    (hopen : (ChannelAt st ch).closed = false)
    (hfresh : ∀ c ∈ st.channels, c.sessionId ≠ some sid) :
    Inv (applyEstablished st ch sid) := by
  have hlen : (applyEstablished st ch sid).channels.length = st.channels.length := by
    simp [applyEstablished]
  have hAtSelf : ChannelAt (applyEstablished st ch sid) ch =
      ⟨some sid, false⟩ := by
    have hopen' : (st.channels.getD ch ⟨none, false⟩).closed = false := hopen
    simp only [ChannelAt, applyEstablished]
    rw [getD_set_self _ _ _ _ hch, hopen']
  have hAtNe : ∀ ch', ch ≠ ch' →
      ChannelAt (applyEstablished st ch sid) ch' = ChannelAt st ch' := by
    intro ch' hne
    simp only [ChannelAt, applyEstablished]
    exact getD_set_ne _ _ _ _ _ hne
  have htr : (applyEstablished st ch sid).transports = mapSet st.transports sid ch := rfl
  constructor
  · rw [htr]
    exact keys_mapSet_nodup hInv.keysNodup
  · intro p hp
    rw [htr] at hp
    rcases (mem_mapSet_nodup hInv.keysNodup p).1 hp with h1 | ⟨h2, h3⟩
    · subst h1
      rw [hlen]
      refine ⟨hch, ?_, ?_⟩ <;> simp [hAtSelf]
    · obtain ⟨h4, h5, h6⟩ := hInv.entries p h2
      have hne : ch ≠ p.2 := by
        intro he
        rw [← he, hnone] at h5
        exact Option.noConfusion h5
      rw [hlen, hAtNe p.2 hne]
      exact ⟨h4, h5, h6⟩
  · intro ch' hch' sid' hsid' hcl'
    rw [hlen] at hch'
    rw [htr]
    by_cases he : ch = ch'
    · subst he
      rw [hAtSelf] at hsid'
      have : sid = sid' := Option.some.inj hsid'
      subst this
      exact (mem_mapSet_nodup hInv.keysNodup _).2 (Or.inl rfl)
    · rw [hAtNe ch' he] at hsid' hcl'
      have hmem := hInv.complete ch' hch' sid' hsid' hcl'
      have hne : sid' ≠ sid := by
        intro heq
        subst heq
        exact hfresh (ChannelAt st ch') (getD_mem _ _ _ hch') hsid'
      exact (mem_mapSet_nodup hInv.keysNodup _).2 (Or.inr ⟨hmem, hne⟩)
  · intro i j hi hj sid' hsi hsj
    rw [hlen] at hi hj
    by_cases hie : ch = i
    · by_cases hje : ch = j
      · rw [← hie, ← hje]
      · subst hie
        rw [hAtSelf] at hsi
        rw [hAtNe j hje] at hsj
        have : sid = sid' := Option.some.inj hsi
        subst this
        exact absurd hsj (hfresh (ChannelAt st j) (getD_mem _ _ _ hj))
    · by_cases hje : ch = j
      · subst hje
        rw [hAtSelf] at hsj
        rw [hAtNe i hie] at hsi
        have : sid = sid' := Option.some.inj hsj
        subst this
        exact absurd hsi (hfresh (ChannelAt st i) (getD_mem _ _ _ hi))
      · rw [hAtNe i hie] at hsi
        rw [hAtNe j hje] at hsj
        exact hInv.uniqueIds i j hi hj sid' hsi hsj

/-- The close callback preserves the invariant. -/
theorem inv_close (st : GatewayState) (hInv : Inv st) (ch : Nat)
    (hch : ch < st.channels.length) :
    Inv (applyClose st ch) := by
  have hlen : (applyClose st ch).channels.length = st.channels.length := by
    simp [applyClose]
  have hAtSelf : ChannelAt (applyClose st ch) ch =
      ⟨(ChannelAt st ch).sessionId, true⟩ := by
    simp only [ChannelAt, applyClose]
    rw [getD_set_self _ _ _ _ hch]
  have hAtNe : ∀ ch', ch ≠ ch' →
      ChannelAt (applyClose st ch) ch' = ChannelAt st ch' := by
    intro ch' hne
    simp only [ChannelAt, applyClose]
    exact getD_set_ne _ _ _ _ _ hne
  have hsess : ∀ x, (ChannelAt (applyClose st ch) x).sessionId =
      (ChannelAt st x).sessionId := by
    intro x
    by_cases he : ch = x
    · subst he
      rw [hAtSelf]
    · rw [hAtNe x he]
  cases hs : (ChannelAt st ch).sessionId with
  | none =>
    have htr : (applyClose st ch).transports = st.transports := by
      simp only [applyClose, hs]
    constructor
    · rw [htr]
      exact hInv.keysNodup
    · intro p hp
      rw [htr] at hp
      obtain ⟨h4, h5, h6⟩ := hInv.entries p hp
      have hne : ch ≠ p.2 := by
        intro he
        rw [← he, hs] at h5
        exact Option.noConfusion h5
      rw [hlen, hAtNe p.2 hne]
      exact ⟨h4, h5, h6⟩
    · intro ch' hch' sid' hsid' hcl'
      rw [hlen] at hch'
      rw [htr]
      by_cases he : ch = ch'
      · subst he
        rw [hAtSelf] at hcl'
        exact absurd hcl' (by simp)
      · rw [hAtNe ch' he] at hsid' hcl'
        exact hInv.complete ch' hch' sid' hsid' hcl'
    · intro i j hi hj sid' hsi hsj
      rw [hlen] at hi hj
      rw [hsess i] at hsi
      rw [hsess j] at hsj
      exact hInv.uniqueIds i j hi hj sid' hsi hsj
  | some sid =>
    have htr : (applyClose st ch).transports = mapDelete st.transports sid := by
      simp only [applyClose, hs]
    constructor
    · rw [htr]
      exact keys_mapDelete_nodup hInv.keysNodup
    · intro p hp
      rw [htr] at hp
      obtain ⟨h2, h3⟩ := (mem_mapDelete_nodup hInv.keysNodup p).1 hp
      obtain ⟨h4, h5, h6⟩ := hInv.entries p h2
      have hne : ch ≠ p.2 := by
        intro he
        rw [← he, hs] at h5
        exact h3 (Option.some.inj h5).symm
      rw [hlen, hAtNe p.2 hne]
      exact ⟨h4, h5, h6⟩
    · intro ch' hch' sid' hsid' hcl'
      rw [hlen] at hch'
      rw [htr]
      by_cases he : ch = ch'
      · subst he
        rw [hAtSelf] at hcl'
        exact absurd hcl' (by simp)
      · rw [hAtNe ch' he] at hsid' hcl'
        have hmem := hInv.complete ch' hch' sid' hsid' hcl'
        have hne : sid' ≠ sid := by
          intro heq
          subst heq
          exact he (hInv.uniqueIds ch ch' hch hch' sid' hs hsid')
        exact (mem_mapDelete_nodup hInv.keysNodup _).2 ⟨hmem, hne⟩
    · intro i j hi hj sid' hsi hsj
      rw [hlen] at hi hj
      rw [hsess i] at hsi
      rw [hsess j] at hsj
      exact hInv.uniqueIds i j hi hj sid' hsi hsj

/-- Every reachable gateway state satisfies the invariant. -/
theorem reachable_inv {st : GatewayState} (h : Reachable st) : Inv st := by
  induction h with
  | init => exact inv_initialState
  | step hr hs ih =>
    cases hs with
    | request m sid pb => exact inv_request _ ih m sid pb
    | established ch sid hch hnone hopen hfresh =>
      exact inv_established _ ih ch sid hch hnone hopen hfresh
    | closeEvt ch hch hopen => exact inv_close _ ih ch hch

/-! Evaluation lemmas for the individual dispatch branches. -/

/-- POST with a registered session header: the registered channel is
reused and the state is untouched (in particular the factory is not
invoked). -/
theorem handle_post_reuse (st : GatewayState) (X : String) (ch : Nat)
    (h : mapGet st.transports X = some ch) (pb : Except String (Option Json)) :
    handleMcpRequest st "POST" (some X) pb =
      (st, match pb with
           | Except.error e => Outcome.threw e
           | Except.ok b => Outcome.handled ch b) := by
  cases pb <;> simp [handleMcpRequest, mapHas, h]

/-- POST with no session header, or one the registry does not know:
the factory runs, one fresh unestablished channel is appended, and the
body result is forwarded to it (or its failure propagates). -/
theorem handle_post_create (st : GatewayState) (sid : Option String)
    (hsid : sid = none ∨ ∃ s, sid = some s ∧ mapHas st.transports s = false)
    (pb : Except String (Option Json)) :
    handleMcpRequest st "POST" sid pb =
      ({ st with channels := st.channels ++ [⟨none, false⟩] },
       match pb with
       | Except.error e => Outcome.threw e
       | Except.ok b => Outcome.handled st.channels.length b) := by
  rcases hsid with h | ⟨s, hs, hhas⟩
  · subst h
    cases pb <;> simp [handleMcpRequest]
  · subst hs
    cases pb <;> simp [handleMcpRequest, hhas]

/-- GET/DELETE with a registered session header: the registered channel
is reused with no body argument. -/
theorem handle_getdel_reuse (st : GatewayState) (m : String)
    (hm : m = "GET" ∨ m = "DELETE") (X : String) (ch : Nat)
    (h : mapGet st.transports X = some ch) (pb : Except String (Option Json)) :
    handleMcpRequest st m (some X) pb = (st, Outcome.handledNoBody ch) := by
  have hpost : m ≠ "POST" := by
    rcases hm with h1 | h1 <;> subst h1 <;> decide
  unfold handleMcpRequest
  rw [if_neg hpost, if_pos hm]
  simp [h]

/-- A request whose parsed-body result is a failure and whose dispatch
reaches a channel-forwarding POST path lets the failure propagate. -/
theorem handle_post_outcome_error (st : GatewayState) (sid : Option String)
    (e : String) :
    (handleMcpRequest st "POST" sid (Except.error e)).2 = Outcome.threw e := by
  unfold handleMcpRequest
  dsimp only
  rw [if_pos rfl]
  repeat' split
  all_goals rfl

/-- A matched-path exchange whose dispatch lets a failure propagate is
answered by the top-level catch: 500 with the standard envelope when no
response bytes have been sent, otherwise log-only. -/
theorem handleConnection_threw (st : GatewayState) (cfg m : String)
    (sid : Option String) (pb : Except String (Option Json)) (hs : Bool)
    (e : String) (h : (handleMcpRequest st m sid pb).2 = Outcome.threw e) :
    handleConnection st cfg cfg m sid pb hs =
      ((handleMcpRequest st m sid pb).1,
       if hs then ConnResult.loggedOnly e
       else ConnResult.sent 500 internalErrorJson) := by
  unfold handleConnection
  rw [if_pos rfl]
  rw [show handleMcpRequest st m sid pb =
    ((handleMcpRequest st m sid pb).1, Outcome.threw e) from by rw [← h]]

/-- Elements of the drain loop are exactly the closes of the registered
channels. -/
theorem mem_stopChannelCloses (m : List (String × Nat)) (a : StopAction) :
    a ∈ stopChannelCloses m ↔ ∃ p ∈ m, a = StopAction.awaitChannelClose p.2 := by
  induction m with
  | nil => simp [stopChannelCloses]
  | cons hd tl ih =>
    obtain ⟨k, ch⟩ := hd
    simp only [stopChannelCloses, List.mem_cons, ih]
    constructor
    · rintro (h1 | ⟨p, hp, hpa⟩)
      · exact ⟨(k, ch), Or.inl rfl, h1⟩
      · exact ⟨p, Or.inr hp, hpa⟩
    · rintro ⟨p, hp | hp, hpa⟩
      · subst hp
        exact Or.inl hpa
      · exact Or.inr ⟨p, hp, hpa⟩

/-! Concrete reachable states used to instantiate the theorems. -/

/-- State after one creating POST: one channel, not yet established. -/
def stA : GatewayState := ⟨[], [⟨none, false⟩]⟩

/-- State after the engine assigned id `s1` to channel `0`. -/
def stB : GatewayState := ⟨[("s1", 0)], [⟨some "s1", false⟩]⟩

theorem reachable_stA : Reachable stA := by
  have h : (handleMcpRequest initialState "POST" none (Except.ok none)).1 = stA := by
    decide
  exact h ▸ Reachable.step Reachable.init
    (Step.request "POST" none (Except.ok none))

theorem reachable_stB : Reachable stB := by
  have h : applyEstablished stA 0 "s1" = stB := by
    decide
  exact h ▸ Reachable.step reachable_stA
    (Step.established 0 "s1" (by decide) (by decide) (by decide) (by decide))

/-- A sample structured-format parse used to instantiate the body
collector theorems on concrete input. -/
def jpTest : String → Except String Json :=
  fun s => if s = "good" then Except.ok (Json.num 7) else Except.error "bad"

/-!  Claim theorems. -/

/-- C1: in every reachable state, an id is a key of the registry iff its
channel has been established with that id and has not yet fired its
close callback; dispatching any request (lookups included) never mutates
the registry, so insertion happens only in the id-assigned callback; and
the close callback of a channel never assigned an id removes nothing. -/
theorem registry_discoverability_invariant (st : GatewayState) (h : Reachable st) :
    (∀ id, mapHas st.transports id = true ↔
      ∃ ch, ch < st.channels.length ∧ (ChannelAt st ch).sessionId = some id ∧
        (ChannelAt st ch).closed = false) ∧
    (∀ m sid pb, (handleMcpRequest st m sid pb).1.transports = st.transports) ∧
    (∀ ch, (ChannelAt st ch).sessionId = none →
      (applyClose st ch).transports = st.transports) := by
  have hInv := reachable_inv h
  refine ⟨?_, ?_, ?_⟩
  · intro id
    constructor
    · intro hhas
      simp only [mapHas, Option.isSome_iff_exists] at hhas
      obtain ⟨ch, hget⟩ := hhas
      obtain ⟨h1, h2, h3⟩ := hInv.entries (id, ch) (mapGet_mem hget)
      exact ⟨ch, h1, h2, h3⟩
    · rintro ⟨ch, h1, h2, h3⟩
      have hmem := hInv.complete ch h1 id h2 h3
      simpa [mapHas] using mapGet_isSome_of_mem hmem
  · intro m sid pb
    exact handleMcpRequest_transports st m sid pb
  · intro ch hnone
    simp [applyClose, hnone]

theorem registry_discoverability_invariant_witness :
    mapHas stB.transports "s1" = true ↔
      ∃ ch, ch < stB.channels.length ∧ (ChannelAt stB ch).sessionId = some "s1" ∧
        (ChannelAt stB ch).closed = false :=
  (registry_discoverability_invariant stB reachable_stB).1 "s1"

/-- C2: a POST with no recognized session id invokes the factory for
exactly one fresh engine instance; once the engine assigns id `X` the
registry holds exactly one entry for `X`; and every later request
carrying `X` is routed to that identical channel (same reference) with
the state untouched, so the factory is never invoked again for `X`. -/
theorem create_once_reuse_identical (st : GatewayState) (h : Reachable st) :
    (∀ sid pb, (sid = none ∨ ∃ s, sid = some s ∧ mapHas st.transports s = false) →
      (handleMcpRequest st "POST" sid pb).1.channels.length = st.channels.length + 1) ∧
    (∀ ch X, ch < st.channels.length → (ChannelAt st ch).sessionId = none →
      (ChannelAt st ch).closed = false → (∀ c ∈ st.channels, c.sessionId ≠ some X) →
      countKeys (applyEstablished st ch X).transports X = 1) ∧
    (∀ X ch b, mapGet st.transports X = some ch →
      handleMcpRequest st "POST" (some X) (Except.ok b) = (st, Outcome.handled ch b)) ∧
    (∀ m X ch pb, (m = "GET" ∨ m = "DELETE") → mapGet st.transports X = some ch →
      handleMcpRequest st m (some X) pb = (st, Outcome.handledNoBody ch)) := by
  refine ⟨?_, ?_, ?_, ?_⟩
  · intro sid pb hsid
    rw [handle_post_create st sid hsid pb]
    cases pb <;> simp
  · intro ch X hch hnone hopen hfresh
    have hInv' := inv_established st (reachable_inv h) ch X hch hnone hopen hfresh
    have hget : mapGet (applyEstablished st ch X).transports X = some ch :=
      mapGet_mapSet_self st.transports X ch
    exact countKeys_eq_one hInv'.keysNodup hget
  · intro X ch b hget
    rw [handle_post_reuse st X ch hget]
  · intro m X ch pb hm hget
    exact handle_getdel_reuse st m hm X ch hget pb

theorem create_once_reuse_identical_witness :
    handleMcpRequest stB "POST" (some "s1") (Except.ok none) =
      (stB, Outcome.handled 0 none) :=
  (create_once_reuse_identical stB reachable_stB).2.2.1 "s1" 0 none (by decide)

/-- C3: a POST whose supplied session id is not a key of the registry is
dispatched exactly as if no id had been supplied: same new state, same
outcome — a brand-new session, not an error. -/
theorem unknown_id_treated_as_missing (st : GatewayState) (s : String)
    (pb : Except String (Option Json)) (h : mapHas st.transports s = false) :
    handleMcpRequest st "POST" (some s) pb = handleMcpRequest st "POST" none pb := by
  rw [handle_post_create st (some s) (Or.inr ⟨s, rfl, h⟩) pb,
      handle_post_create st none (Or.inl rfl) pb]

theorem unknown_id_treated_as_missing_witness :
    handleMcpRequest initialState "POST" (some "nope") (Except.ok none) =
      handleMcpRequest initialState "POST" none (Except.ok none) :=
  unknown_id_treated_as_missing initialState "nope" (Except.ok none) (by decide)

/-- C4 (counterexample): with one active session, the whole action
sequence of `stop` is the awaited channel close followed by the bare
listener-close call; no await of the listener-close completion occurs
before the promise resolves, refuting "its returned promise resolves
only once both steps (all channel closes and the listener close) have
finished". -/
theorem stop_counterexample :
    stopActions stB = [StopAction.awaitChannelClose 0, StopAction.callListenerClose] ∧
    StopAction.awaitListenerClose ∉ stopActions stB := by
  decide

/-- C4 (amended): `stop` awaits `close()` of every channel currently in
the registry, all of these awaits precede the single listener-close
call, which comes last; the listener-close completion is never awaited
before `stop` resolves; with an empty registry the sequence is just the
listener-close call and completes without error. -/
theorem stop_drains_all_then_initiates_listener_close (st : GatewayState) :
    (∀ p ∈ st.transports, StopAction.awaitChannelClose p.2 ∈ stopActions st) ∧
    (stopActions st).getLast? = some StopAction.callListenerClose ∧
    (∀ a ∈ stopChannelCloses st.transports, ∃ ch, a = StopAction.awaitChannelClose ch) ∧
    StopAction.awaitListenerClose ∉ stopActions st ∧
    stopActions initialState = [StopAction.callListenerClose] := by
  refine ⟨?_, ?_, ?_, ?_, rfl⟩
  · intro p hp
    exact List.mem_append_left _ ((mem_stopChannelCloses _ _).2 ⟨p, hp, rfl⟩)
  · unfold stopActions
    exact List.getLast?_concat _
  · intro a ha
    obtain ⟨p, _, hpa⟩ := (mem_stopChannelCloses _ _).1 ha
    exact ⟨p.2, hpa⟩
  · intro hmem
    rcases List.mem_append.1 hmem with h1 | h2
    · obtain ⟨p, _, hpa⟩ := (mem_stopChannelCloses _ _).1 h1
      exact StopAction.noConfusion hpa
    · simp at h2

theorem stop_drains_all_witness :
    StopAction.awaitChannelClose 0 ∈ stopActions stB :=
  (stop_drains_all_then_initiates_listener_close stB).1 ("s1", 0) (by decide)

/-- C5 (counterexample): on the port-unavailable (`error`) listener
event the promise returned by `start` does not settle at all — in
particular it never rejects — refuting "fails (reports an error) when
the port is unavailable". -/
theorem start_counterexample :
    startSettle ListenEvent.errorEvent = none ∧
    startSettle ListenEvent.errorEvent ≠ some StartOutcome.rejected := by
  decide

/-- C5 (amended): the promise returned by `start` resolves exactly on
the listening event (listener bound and accepting); on the
port-unavailable event it never settles, and no event makes it fail. -/
theorem start_resolves_only_on_listening :
    (∀ e, startSettle e = some StartOutcome.resolved ↔ e = ListenEvent.listening) ∧
    startSettle ListenEvent.errorEvent = none ∧
    (∀ e, startSettle e ≠ some StartOutcome.rejected) := by
  refine ⟨?_, rfl, ?_⟩ <;> intro e <;> cases e <;> simp [startSettle]

theorem start_resolves_only_on_listening_witness :
    startSettle ListenEvent.listening = some StartOutcome.resolved :=
  ((start_resolves_only_on_listening).1 ListenEvent.listening).2 rfl

/-- C6: an empty accumulated body yields the no-payload result under any
parse function (no parse attempt, never an error); a non-empty body
whose parse fails propagates the failure, which the matched-path handler
maps to the 500 envelope when nothing has been sent yet; and a non-empty
body parsing to `v` reaches the registered channel's handle call as
exactly `v`. -/
theorem body_collector_contract (jp : String → Except String Json) :
    (parseBody jp "" = Except.ok none) ∧
    (∀ jp', parseBody jp "" = parseBody jp' "") ∧
    (∀ s e st sid, s ≠ "" → jp s = Except.error e →
      (handleConnection st "/mcp" "/mcp" "POST" sid (parseBody jp s) false).2 =
        ConnResult.sent 500 internalErrorJson) ∧
    (∀ s v st X ch, s ≠ "" → jp s = Except.ok v → mapGet st.transports X = some ch →
      handleMcpRequest st "POST" (some X) (parseBody jp s) =
        (st, Outcome.handled ch (some v))) := by
  refine ⟨by simp [parseBody], fun jp' => by simp [parseBody], ?_, ?_⟩
  · intro s e st sid hs hjp
    have hpb : parseBody jp s = Except.error e := by simp [parseBody, hs, hjp]
    rw [hpb, handleConnection_threw st "/mcp" "POST" sid (Except.error e) false e
      (handle_post_outcome_error st sid e)]
    simp
  · intro s v st X ch hs hjp hget
    have hpb : parseBody jp s = Except.ok (some v) := by simp [parseBody, hs, hjp]
    rw [hpb, handle_post_reuse st X ch hget]

theorem body_collector_contract_witness :
    handleMcpRequest stB "POST" (some "s1") (parseBody jpTest "good") =
      (stB, Outcome.handled 0 (some (Json.num 7))) :=
  (body_collector_contract jpTest).2.2.2 "good" (Json.num 7) stB "s1" 0
    (by decide) rfl (by decide)

/-- C7: when a matched-path dispatch lets a failure propagate, the
top-level handler answers 500 with the -32603 envelope exactly when no
response bytes have been sent yet; when bytes were already sent the
failure is only logged and nothing more is written. -/
theorem uncaught_failure_maps_to_500_iff_unsent (st : GatewayState)
    (cfg m : String) (sid : Option String) (pb : Except String (Option Json))
    (e : String) (hs : Bool)
    (h : (handleMcpRequest st m sid pb).2 = Outcome.threw e) :
    ((handleConnection st cfg cfg m sid pb hs).2 =
        ConnResult.sent 500 internalErrorJson ↔ hs = false) ∧
    (hs = true → (handleConnection st cfg cfg m sid pb hs).2 =
        ConnResult.loggedOnly e) := by
  rw [handleConnection_threw st cfg m sid pb hs e h]
  cases hs <;> simp

theorem uncaught_failure_maps_to_500_iff_unsent_witness :
    ((handleConnection initialState "/mcp" "/mcp" "POST" none
        (Except.error "boom") false).2 =
      ConnResult.sent 500 internalErrorJson ↔ false = false) :=
  (uncaught_failure_maps_to_500_iff_unsent initialState "/mcp" "POST" none
    (Except.error "boom") "boom" false
    (handle_post_outcome_error initialState none "boom")).1

/-- C8: a GET or DELETE with no session header, and equally one whose
header value is not a key of the registry, is answered 400 with the
exact invalid-session envelope — the identical response in both cases —
and the state is untouched with no channel call. -/
theorem getdel_invalid_session_400 (st : GatewayState) (m : String)
    (sid : Option String) (pb : Except String (Option Json))
    (hm : m = "GET" ∨ m = "DELETE")
    (hsid : sid = none ∨ ∃ s, sid = some s ∧ mapHas st.transports s = false) :
    handleMcpRequest st m sid pb = (st, Outcome.responded 400 invalidSessionJson) := by
  have hpost : m ≠ "POST" := by rcases hm with h | h <;> subst h <;> decide
  unfold handleMcpRequest
  rw [if_neg hpost, if_pos hm]
  rcases hsid with h | ⟨s, hs, hhas⟩
  · subst h
    rfl
  · subst hs
    cases hg : mapGet st.transports s with
    | none => simp [hg]
    | some ch => simp [mapHas, hg] at hhas

theorem getdel_invalid_session_400_witness :
    handleMcpRequest stB "GET" none (Except.ok none) =
      (stB, Outcome.responded 400 invalidSessionJson) :=
  getdel_invalid_session_400 stB "GET" none (Except.ok none) (Or.inl rfl) (Or.inl rfl)

/-- C9: any verb other than POST, GET and DELETE on the configured path
is answered 405 with the -32000 "Method not allowed" envelope and the
state is untouched. -/
theorem other_verb_405 (st : GatewayState) (m : String) (sid : Option String)
    (pb : Except String (Option Json))
    (h1 : m ≠ "POST") (h2 : m ≠ "GET") (h3 : m ≠ "DELETE") :
    handleMcpRequest st m sid pb = (st, Outcome.responded 405 methodNotAllowedJson) := by
  unfold handleMcpRequest
  rw [if_neg h1, if_neg (by simp [h2, h3])]

theorem other_verb_405_witness :
    handleMcpRequest stB "PUT" none (Except.ok none) =
      (stB, Outcome.responded 405 methodNotAllowedJson) :=
  other_verb_405 stB "PUT" none (Except.ok none) (by decide) (by decide) (by decide)

/-- C10: every POST whose body result is a parse failure — whatever
session id it carried — leaves the registry unchanged and performs no
channel handle call (the failure propagates); and when it carried no
registered session id, the factory has already produced and connected a
fresh engine instance, which ends up unestablished, open, absent from
the registry, and outside the set of channels `stop` would close. -/
theorem parse_failure_leaks_fresh_instance (st : GatewayState) (h : Reachable st)
    (sid : Option String) (e : String) :
    (handleMcpRequest st "POST" sid (Except.error e)).1.transports = st.transports ∧
    (handleMcpRequest st "POST" sid (Except.error e)).2 = Outcome.threw e ∧
    ((sid = none ∨ ∃ s, sid = some s ∧ mapHas st.transports s = false) →
      (handleMcpRequest st "POST" sid (Except.error e)).1.channels.length =
        st.channels.length + 1 ∧
      ChannelAt (handleMcpRequest st "POST" sid (Except.error e)).1
        st.channels.length = ⟨none, false⟩ ∧
      (∀ id, mapGet (handleMcpRequest st "POST" sid (Except.error e)).1.transports id ≠
        some st.channels.length) ∧
      StopAction.awaitChannelClose st.channels.length ∉
        stopActions (handleMcpRequest st "POST" sid (Except.error e)).1) := by
  have hInv := reachable_inv h
  refine ⟨handleMcpRequest_transports st "POST" sid (Except.error e),
          handle_post_outcome_error st sid e, ?_⟩
  intro hsid
  have heq := handle_post_create st sid hsid (Except.error e)
  rw [heq]
  refine ⟨by simp, ?_, ?_, ?_⟩
  · simp only [ChannelAt]
    exact getD_append_length _ _ _
  · intro id hget
    obtain ⟨h1, _, _⟩ := hInv.entries (id, st.channels.length) (mapGet_mem hget)
    exact absurd h1 (Nat.lt_irrefl _)
  · intro hmem
    rcases List.mem_append.1 hmem with h1 | h2
    · obtain ⟨p, hp, hpa⟩ := (mem_stopChannelCloses _ _).1 h1
      obtain ⟨h3, _, _⟩ := hInv.entries p hp
      have : p.2 = st.channels.length := (StopAction.awaitChannelClose.injEq .. ▸ hpa).symm
      rw [this] at h3
      exact absurd h3 (Nat.lt_irrefl _)
    · simp at h2

theorem parse_failure_leaks_fresh_instance_witness :
    (handleMcpRequest stB "POST" (some "s1") (Except.error "bad")).1.transports =
      stB.transports ∧
    (handleMcpRequest initialState "POST" none (Except.error "bad")).1.channels.length =
      initialState.channels.length + 1 :=
  ⟨(parse_failure_leaks_fresh_instance stB reachable_stB (some "s1") "bad").1,
   ((parse_failure_leaks_fresh_instance initialState Reachable.init none "bad").2.2
     (Or.inl rfl)).1⟩

end McpGateway
